import Mathlib

/-!
Shallow embedding of the LSM303D driver core from
src/apps/drivers/lsm303d/lsm303d.cpp: the report ring, the measurement
step, the scheduler registration and the ioctl control surface, together
with proofs of the ring, scheduler and error-handling properties.
-/

namespace Lsm303d

/-- One decoded sensor report: the fields of struct accel_report that the
driver writes (monotonic timestamp plus three raw 16-bit axis values). -/
structure accel_report where
  timestamp : Nat
  x_raw : Int
  y_raw : Int
  z_raw : Int
deriving Repr, DecidableEq, Inhabited

/-- The outcome of the one SPI burst exchange in LSM303D::measure: the
success flag returned by transfer (which the source never inspects) and
the decoded raw_report_accel fields filled in by the exchange. -/
structure TransferResp where
  ok : Bool
  status : Nat
  x : Int
  y : Int
  z : Int
deriving Repr, DecidableEq, Inhabited

/-- Driver state: the scheduler registration (the _call struct together
with _call_interval and whether hrt_call_every is active) and the report
ring (_num_reports, _next_report, _oldest_report, and _reports modelled
as a total function from slot index to slot content). -/
structure LSM303D where
  call_interval : Nat
  call_active : Bool
  call_delay : Nat
  call_period : Nat
  num_reports : Nat
  next_report : Nat
  oldest_report : Nat
  reports : Nat → accel_report

def OK : Int := 0

/-- Modelled from the spec: the NuttX errno codes named by the driver
(the errno header is not under src/); only their distinctness matters. -/
def EINVAL : Int := 22

def ENOMEM : Int := 12

def ENOSPC : Int := 28

def EAGAIN : Int := 11

def EIO : Int := 5

/-- The documented identity constant WHO_I_AM. -/
def WHO_I_AM : Nat := 0x49

/-- Modelled from the spec: the poll-rate sentinel values from the PX4
sensor driver headers (not under src/); distinct magic values far above
any rate the driver accepts, and distinct from zero. -/
def SENSOR_POLLRATE_MANUAL : Nat := 1000000

def SENSOR_POLLRATE_EXTERNAL : Nat := 1000001

def SENSOR_POLLRATE_MAX : Nat := 1000002

def SENSOR_POLLRATE_DEFAULT : Nat := 1000003

/-- The report-index helper macro INCREMENT: add one and wrap to zero
when the limit is reached. -/
def INCREMENT (x lim : Nat) : Nat :=
  if x + 1 ≥ lim then 0 else x + 1

/-- The report one measurement step writes: the current monotonic time
plus the raw axis values decoded from the burst exchange. -/
def freshReport (resp : TransferResp) (now : Nat) : accel_report :=
  { timestamp := now, x_raw := resp.x, y_raw := resp.y, z_raw := resp.z }

/-- LSM303D::measure: fetch data from the sensor (the result flag of
transfer is ignored by the source), write the report into the current
write slot, advance the write cursor, and advance the read cursor as
well when the write cursor would run into it; returns the new state
together with the report handed to orb_publish. -/
def measure (s : LSM303D) (resp : TransferResp) (now : Nat) :
    LSM303D × accel_report :=
  let report := freshReport resp now
  let reports' := fun j => if j = s.next_report then report else s.reports j
  let next' := INCREMENT s.next_report s.num_reports
  let oldest' :=
    if next' = s.oldest_report then INCREMENT s.oldest_report s.num_reports
    else s.oldest_report
  ({ s with reports := reports', next_report := next', oldest_report := oldest' },
   report)

/-- The automatic-mode copy loop of LSM303D::read: while the caller still
has space, memcpy the oldest unread report to the caller's buffer and
advance the read cursor. The source never advances the buffer pointer,
so every iteration copies to the same destination slot, modelled here as
the threaded buf value: each copied report overwrites the previous one
and only the last drained report remains visible to the caller. The
first component counts the reports copied (the accumulated ret). -/
def drain (s : LSM303D) (buf : Option accel_report) :
    Nat → Nat × Option accel_report × LSM303D
  | 0 => (0, buf, s)
  | count + 1 =>
    if s.oldest_report ≠ s.next_report then
      let r := s.reports s.oldest_report
      let s' := { s with oldest_report := INCREMENT s.oldest_report s.num_reports }
      let p := drain s' (some r) count
      (p.1 + 1, p.2.1, p.2.2)
    else
      drain s buf count

/-- LSM303D::read, with count standing for buflen divided by the report
size: reject a too-small buffer with ENOSPC; in automatic mode run the
copy loop and return EAGAIN when nothing was copied, otherwise the
number of reports the returned byte count claims together with the one
report actually left in the caller's (never advanced) buffer slot; in
manual mode reset both cursors, take one synchronous measurement and
return the single report copied from slot zero. -/
def read (s : LSM303D) (count : Nat) (resp : TransferResp) (now : Nat) :
    Except Int (Nat × Option accel_report) × LSM303D :=
  if count < 1 then (.error (-ENOSPC), s)
  else if 0 < s.call_interval then
    let p := drain s none count
    if p.1 = 0 then (.error (-EAGAIN), p.2.2)
    else (.ok (p.1, p.2.1), p.2.2)
  else
    let s0 := { s with oldest_report := 0, next_report := 0 }
    let q := measure s0 resp now
    (.ok (1, some (q.1.reports 0)), q.1)

/-- LSM303D::stop: cancel the periodic registration; idempotent. -/
def stop (s : LSM303D) : LSM303D := { s with call_active := false }

/-- LSM303D::start: stop first, reset both ring cursors to zero, then
invoke hrt_call_every with the literal 1000 as the initial delay and
_call_interval as the period. The timer facility itself is not under
src/; per the spec's host-timer contract the registration is recorded
here as the (delay, period, active) triple the source passes to it. -/
def start (s : LSM303D) : LSM303D :=
  { s with call_active := true, call_delay := 1000,
           call_period := s.call_interval,
           next_report := 0, oldest_report := 0 }

/-- The ioctl commands the driver handles itself. -/
inductive Cmd where
  | SENSORIOCSPOLLRATE
  | SENSORIOCGPOLLRATE
  | SENSORIOCSQUEUEDEPTH
  | SENSORIOCGQUEUEDEPTH
  | SENSORIOCRESET
deriving Repr, DecidableEq

/-- The default (numeric rate) arm of the SENSORIOCSPOLLRATE switch:
convert hertz to a microsecond interval, reject intervals under 1000,
update the period and interval, and start polling when it was off. -/
def setPollRateNumeric (s : LSM303D) (arg : Nat) : Int × LSM303D :=
  let want_start := s.call_interval = 0
  let ticks := 1000000 / arg
  if ticks < 1000 then (-EINVAL, s)
  else
    let s' := { s with call_period := ticks, call_interval := ticks }
    (OK, if want_start then start s' else s')

/-- LSM303D::ioctl; allocOk models whether the new-expression for the
replacement report buffer succeeds in the queue-depth case. -/
def ioctl (s : LSM303D) (cmd : Cmd) (arg : Nat) (allocOk : Bool) :
    Int × LSM303D :=
  match cmd with
  | .SENSORIOCSPOLLRATE =>
    if arg = SENSOR_POLLRATE_MANUAL then
      (OK, { stop s with call_interval := 0 })
    else if arg = SENSOR_POLLRATE_EXTERNAL then (-EINVAL, s)
    else if arg = 0 then (-EINVAL, s)
    else if arg = SENSOR_POLLRATE_MAX ∨ arg = SENSOR_POLLRATE_DEFAULT then
      setPollRateNumeric s 250
    else setPollRateNumeric s arg
  | .SENSORIOCGPOLLRATE =>
    if s.call_interval = 0 then (((SENSOR_POLLRATE_MANUAL : Nat) : Int), s)
    else (((1000000 / s.call_interval : Nat) : Int), s)
  | .SENSORIOCSQUEUEDEPTH =>
    let arg' := arg + 1
    if arg' < 2 ∨ 100 < arg' then (-EINVAL, s)
    else if allocOk = false then (-ENOMEM, s)
    else
      let s' := stop s
      (OK, start { s' with num_reports := arg', reports := fun _ => default })
  | .SENSORIOCGQUEUEDEPTH => (((s.num_reports - 1 : Nat) : Int), s)
  | .SENSORIOCRESET => (-EINVAL, s)

/-- LSM303D::probe: read WHO_AM_I twice (r1 and r2 are the bytes the bus
returns for the two reads), discard the first as the source does with its
void cast, and succeed only when the second equals WHO_I_AM. -/
def probe (r1 r2 : Nat) : Int :=
  let _ := r1
  if r2 = WHO_I_AM then OK else - EIO

/-- The driver state right after the constructor and a successful init:
interval zero (manual mode), no timer registration, a fresh two-slot
ring with both cursors at zero. -/
def initState : LSM303D :=
  { call_interval := 0, call_active := false, call_delay := 0,
    call_period := 0, num_reports := 2, next_report := 0,
    oldest_report := 0, reports := fun _ => default }

/-- Number of slots from index o forward to index n, both taken below N:
the modular cursor distance, written without a modulus so linear
arithmetic can reason about it. -/
def dist (o n N : Nat) : Nat := if o ≤ n then n - o else n + N - o

/-- Number of valid unread reports currently held between the cursors. -/
def ringCount (s : LSM303D) : Nat :=
  dist s.oldest_report s.next_report s.num_reports

/-- The slot index i steps past cursor o in a ring of N slots; for
o below N and i below N this is addition modulo N. -/
def slotIdx (N o i : Nat) : Nat := if o + i < N then o + i else o + i - N

/-- The unread reports of the ring in oldest-first order. -/
def contents (s : LSM303D) : List accel_report :=
  (List.range (ringCount s)).map
    (fun i => s.reports (slotIdx s.num_reports s.oldest_report i))

/-- Cursor-validity invariant: sane capacity and both cursors strictly
below it, so every cursor dereference of the report array is in bounds. -/
def Inv (s : LSM303D) : Prop :=
  2 ≤ s.num_reports ∧ s.num_reports ≤ 100 ∧
  s.next_report < s.num_reports ∧ s.oldest_report < s.num_reports

instance (s : LSM303D) : Decidable (Inv s) := by
  unfold Inv; infer_instance

/-- Abstract bounded-queue push: append the new element, dropping the
oldest one when the queue already holds cap elements. -/
def pushBounded (cap : Nat) (q : List accel_report) (r : accel_report) :
    List accel_report :=
  (if q.length = cap then q.drop 1 else q) ++ [r]

/-- Iterate the measurement step over a sequence of tick inputs. -/
def runMeasures (s : LSM303D) (inputs : List (TransferResp × Nat)) : LSM303D :=
  inputs.foldl (fun t p => (measure t p.1 p.2).1) s

/-- Concrete tick inputs used by the witnesses. -/
def respA : TransferResp := ⟨true, 0, 1, 2, 3⟩

def respB : TransferResp := ⟨true, 0, 4, 5, 6⟩

def respC : TransferResp := ⟨false, 1, 7, 8, 9⟩

def respD : TransferResp := ⟨true, 2, 10, 11, 12⟩

/-- An automatic-mode state: initState right after a successful 250 Hz
rate set (interval 4000 microseconds, ring freshly reset). -/
def autoState : LSM303D := (ioctl initState .SENSORIOCSPOLLRATE 250 true).2

/-- An automatic-mode state with a three-slot ring (two usable slots, one
sentinel), matching the spec's concrete scenario: capacity 2 usable,
interval 4000 microseconds, cursors reset. -/
def ringState3 : LSM303D :=
  { call_interval := 4000, call_active := true, call_delay := 1000,
    call_period := 4000, num_reports := 3, next_report := 0,
    oldest_report := 0, reports := fun _ => default }

lemma INCREMENT_lt {x lim : Nat} (h : 0 < lim) : INCREMENT x lim < lim := by
  unfold INCREMENT; split <;> omega

lemma length_contents (s : LSM303D) : (contents s).length = ringCount s := by
  simp [contents]

lemma contents_eq_nil {s : LSM303D} (h : s.oldest_report = s.next_report) :
    contents s = [] := by
  simp [contents, ringCount, dist, h]

lemma dist_lt {o n N : Nat} (ho : o < N) (hn : n < N) : dist o n N < N := by
  unfold dist; split <;> omega

lemma dist_succ_no_wrap {o n N : Nat} (ho : o < N) (hn : n < N) (h2 : 2 ≤ N)
    (hne : INCREMENT n N ≠ o) :
    dist o (INCREMENT n N) N = dist o n N + 1 ∧ dist o n N < N - 1 := by
  simp only [dist, INCREMENT] at *
  split_ifs at * <;> omega

lemma dist_succ_wrap {o n N : Nat} (ho : o < N) (hn : n < N) (h2 : 2 ≤ N)
    (heq : INCREMENT n N = o) :
    dist (INCREMENT o N) (INCREMENT n N) N = N - 1 ∧ dist o n N = N - 1 := by
  simp only [dist, INCREMENT] at *
  split_ifs at * <;> omega

lemma dist_pop {o n N : Nat} (ho : o < N) (hn : n < N) (hne : o ≠ n) :
    1 ≤ dist o n N ∧ dist (INCREMENT o N) n N = dist o n N - 1 := by
  simp only [dist, INCREMENT] at *
  split_ifs at * <;> omega

lemma slotIdx_ne_of_lt_dist {o n N i : Nat} (ho : o < N) (_hn : n < N)
    (hi : i < dist o n N) : slotIdx N o i ≠ n := by
  simp only [dist, slotIdx] at *
  split_ifs at * <;> omega

lemma slotIdx_dist {o n N : Nat} (ho : o < N) (_hn : n < N) :
    slotIdx N o (dist o n N) = n := by
  simp only [dist, slotIdx] at *
  split_ifs at * <;> omega

lemma slotIdx_shift {o N i : Nat} (ho : o < N) (hi : i < N) :
    slotIdx N (INCREMENT o N) i = slotIdx N o (i + 1) := by
  simp only [slotIdx, INCREMENT] at *
  split_ifs at * <;> omega

lemma ring_push_general (N o n : Nat) (slots : Nat → accel_report)
    (rep : accel_report) (hN2 : 2 ≤ N) (ho : o < N) (hn : n < N) :
    (List.range
        (dist (if INCREMENT n N = o then INCREMENT o N else o)
          (INCREMENT n N) N)).map
      (fun i =>
        if slotIdx N (if INCREMENT n N = o then INCREMENT o N else o) i = n
        then rep
        else slots
          (slotIdx N (if INCREMENT n N = o then INCREMENT o N else o) i))
      = pushBounded (N - 1)
          ((List.range (dist o n N)).map (fun i => slots (slotIdx N o i)))
          rep := by
  by_cases hc : INCREMENT n N = o
  · obtain ⟨hd', hd⟩ := dist_succ_wrap ho hn hN2 hc
    rw [if_pos hc, hd']
    have hlen :
        ((List.range (dist o n N)).map
          (fun i => slots (slotIdx N o i))).length = N - 1 := by
      simp [hd]
    simp only [pushBounded, if_pos hlen]
    rw [hd]
    have hN1 : N - 1 = (N - 2) + 1 := by omega
    rw [hN1]
    conv_rhs => rw [List.range_succ_eq_map]
    simp only [List.map_cons, List.map_map, List.drop_succ_cons,
      List.drop_zero]
    conv_lhs => rw [List.range_succ]
    rw [List.map_append]
    congr 1
    · refine List.map_congr_left (fun i hi => ?_)
      rw [List.mem_range] at hi
      have h1 : slotIdx N (INCREMENT o N) i = slotIdx N o (i + 1) :=
        slotIdx_shift ho (by omega)
      have h2 : slotIdx N o (i + 1) ≠ n := by
        refine slotIdx_ne_of_lt_dist ho hn ?_
        omega
      rw [h1, if_neg h2]
      rfl
    · simp only [List.map_cons, List.map_nil]
      have h1 : slotIdx N (INCREMENT o N) (N - 2) = slotIdx N o (N - 1) := by
        rw [slotIdx_shift ho (by omega)]
        congr 1
        omega
      have h2 : slotIdx N o (N - 1) = n := by
        rw [← hd]
        exact slotIdx_dist ho hn
      rw [h1, h2, if_pos rfl]
  · obtain ⟨hd1, hd2⟩ := dist_succ_no_wrap ho hn hN2 hc
    rw [if_neg hc, hd1, List.range_succ, List.map_append]
    have hlen :
        ((List.range (dist o n N)).map
          (fun i => slots (slotIdx N o i))).length ≠ N - 1 := by
      simp
      omega
    simp only [pushBounded, if_neg hlen]
    congr 1
    · refine List.map_congr_left (fun i hi => ?_)
      rw [List.mem_range] at hi
      rw [if_neg (slotIdx_ne_of_lt_dist ho hn hi)]
    · simp only [List.map_cons, List.map_nil]
      rw [slotIdx_dist ho hn, if_pos rfl]

lemma measure_num_reports (s : LSM303D) (resp : TransferResp) (now : Nat) :
    ((measure s resp now).1).num_reports = s.num_reports := rfl

lemma measure_call_interval (s : LSM303D) (resp : TransferResp) (now : Nat) :
    ((measure s resp now).1).call_interval = s.call_interval := rfl

lemma measure_next_report (s : LSM303D) (resp : TransferResp) (now : Nat) :
    ((measure s resp now).1).next_report
      = INCREMENT s.next_report s.num_reports := rfl

/-- The measurement step updates the abstract unread queue by a bounded
push: the fresh report is appended and, exactly when the ring already
holds its maximum of capacity minus one reports, the oldest is dropped. -/
lemma contents_measure (s : LSM303D) (resp : TransferResp) (now : Nat)
    (h : Inv s) :
    contents (measure s resp now).1
      = pushBounded (s.num_reports - 1) (contents s) (freshReport resp now) := by
  obtain ⟨hN2, -, hn, ho⟩ := h
  exact ring_push_general s.num_reports s.oldest_report s.next_report
    s.reports (freshReport resp now) hN2 ho hn

lemma Inv_measure {s : LSM303D} (resp : TransferResp) (now : Nat)
    (h : Inv s) : Inv (measure s resp now).1 := by
  obtain ⟨hN2, hN100, hn, ho⟩ := h
  refine ⟨hN2, hN100, ?_, ?_⟩
  · rw [measure_next_report, measure_num_reports]
    exact INCREMENT_lt (by omega)
  · show (if INCREMENT s.next_report s.num_reports = s.oldest_report
      then INCREMENT s.oldest_report s.num_reports
      else s.oldest_report) < s.num_reports
    split
    · exact INCREMENT_lt (by omega)
    · exact ho

/-- Popping the oldest unread report: when the ring is nonempty, its
unread queue is the slot under the read cursor followed by the unread
queue of the state whose read cursor has advanced once. -/
lemma contents_pop {s : LSM303D} (h : Inv s)
    (hne : s.oldest_report ≠ s.next_report) :
    contents s
      = s.reports s.oldest_report
        :: contents { s with
             oldest_report := INCREMENT s.oldest_report s.num_reports } := by
  obtain ⟨hN2, -, hn, ho⟩ := h
  obtain ⟨hd1, hd2⟩ := dist_pop ho hn hne
  show (List.range (dist s.oldest_report s.next_report s.num_reports)).map _
    = _ :: (List.range
        (dist (INCREMENT s.oldest_report s.num_reports) s.next_report
          s.num_reports)).map _
  rw [hd2]
  have hd3 : dist s.oldest_report s.next_report s.num_reports
      = (dist s.oldest_report s.next_report s.num_reports - 1) + 1 := by
    omega
  conv_lhs => rw [hd3, List.range_succ_eq_map]
  rw [List.map_cons, List.map_map]
  congr 1
  · show s.reports (slotIdx s.num_reports s.oldest_report 0)
      = s.reports s.oldest_report
    congr 1
    simp only [slotIdx]
    split <;> omega
  · refine List.map_congr_left (fun i hi => ?_)
    rw [List.mem_range] at hi
    have hdlt := dist_lt ho hn
    show s.reports (slotIdx s.num_reports s.oldest_report (Nat.succ i)) = _
    rw [← slotIdx_shift ho (by omega)]

/-- The read-side copy loop only moves the read cursor of the driver
state, keeping it in bounds. -/
lemma drain_state_spec :
    ∀ (count : Nat) (s : LSM303D) (buf : Option accel_report), Inv s →
      ∃ o', o' < s.num_reports
        ∧ (drain s buf count).2.2 = { s with oldest_report := o' } := by
  intro count
  induction count with
  | zero =>
    intro s buf h
    exact ⟨s.oldest_report, h.2.2.2, rfl⟩
  | succ k ih =>
    intro s buf h
    by_cases hne : s.oldest_report ≠ s.next_report
    · have hInv' : Inv { s with
          oldest_report := INCREMENT s.oldest_report s.num_reports } :=
        ⟨h.1, h.2.1, h.2.2.1, INCREMENT_lt (by have := h.1; omega)⟩
      obtain ⟨o', ho', ih2⟩ := ih _ (some (s.reports s.oldest_report)) hInv'
      have hd : (drain s buf (k + 1)).2.2
          = (drain { s with
               oldest_report :=
                 INCREMENT s.oldest_report s.num_reports }
              (some (s.reports s.oldest_report)) k).2.2 := by
        simp only [drain, if_pos hne]
      rw [hd, ih2]
      exact ⟨o', ho', rfl⟩
    · push_neg at hne
      have hd : drain s buf (k + 1) = drain s buf k := by
        simp only [drain, hne, ne_eq, not_true_eq_false, if_false]
      obtain ⟨o', ho', ih2⟩ := ih s buf h
      rw [hd, ih2]
      exact ⟨o', ho', rfl⟩

lemma pushBounded_eq {cap : Nat} (hcap : 1 ≤ cap) {q : List accel_report}
    {r : accel_report} (h : q.length ≤ cap) :
    pushBounded cap q r = (q ++ [r]).drop (q.length + 1 - cap) := by
  unfold pushBounded
  split_ifs with h1
  · have h2 : q.length + 1 - cap = 1 := by omega
    rw [h2, List.drop_append_of_le_length (by omega)]
  · have h2 : q.length + 1 - cap = 0 := by omega
    rw [h2, List.drop_zero]

/-- Folding bounded pushes over a sequence keeps exactly the most recent
cap elements: the result is the tail of the whole stream past the point
where it exceeds the capacity. -/
lemma foldl_pushBounded (cap : Nat) (hcap : 1 ≤ cap) :
    ∀ (rs q : List accel_report), q.length ≤ cap →
      List.foldl (pushBounded cap) q rs
        = (q ++ rs).drop (q.length + rs.length - cap) := by
  intro rs
  induction rs with
  | nil =>
    intro q h
    simp only [List.foldl_nil, List.append_nil, List.length_nil,
      Nat.add_zero]
    have h2 : q.length - cap = 0 := by omega
    rw [h2, List.drop_zero]
  | cons r rs ih =>
    intro q h
    have hlen : (pushBounded cap q r).length
        = q.length + 1 - (q.length + 1 - cap) := by
      rw [pushBounded_eq hcap h]
      simp
    have hle : (pushBounded cap q r).length ≤ cap := by
      rw [hlen]
      omega
    rw [List.foldl_cons, ih _ hle, hlen, pushBounded_eq hcap h]
    have hsplit : List.drop (q.length + 1 - cap) (q ++ [r]) ++ rs
        = List.drop (q.length + 1 - cap) ((q ++ [r]) ++ rs) :=
      (List.drop_append_of_le_length (by simp)).symm
    rw [hsplit, List.drop_drop]
    have h3 : q.length + 1 - cap
        + (q.length + 1 - (q.length + 1 - cap) + rs.length - cap)
        = q.length + (r :: rs).length - cap := by
      simp
      omega
    rw [h3, List.append_assoc, List.singleton_append]

/-- Iterated measurement steps act on the abstract unread queue as
iterated bounded pushes, and leave capacity and interval alone. -/
lemma contents_runMeasures :
    ∀ (inputs : List (TransferResp × Nat)) (s : LSM303D), Inv s →
      contents (runMeasures s inputs)
        = List.foldl (pushBounded (s.num_reports - 1)) (contents s)
            (inputs.map (fun p => freshReport p.1 p.2))
      ∧ Inv (runMeasures s inputs)
      ∧ (runMeasures s inputs).num_reports = s.num_reports
      ∧ (runMeasures s inputs).call_interval = s.call_interval := by
  intro inputs
  induction inputs with
  | nil =>
    intro s h
    exact ⟨rfl, h, rfl, rfl⟩
  | cons p rest ih =>
    intro s h
    have h1 : runMeasures s (p :: rest)
        = runMeasures (measure s p.1 p.2).1 rest := rfl
    obtain ⟨ih1, ih2, ih3, ih4⟩ := ih _ (Inv_measure p.1 p.2 h)
    rw [h1]
    refine ⟨?_, ih2, by rw [ih3, measure_num_reports],
      by rw [ih4, measure_call_interval]⟩
    rw [ih1, measure_num_reports, contents_measure _ _ _ h, List.map_cons,
      List.foldl_cons]

/-- C1 (code bug): the ring cursors do implement overwrite-oldest with
one sentinel slot, but the copy loop of read never advances the caller's
buffer pointer, so the drained reports are not delivered oldest-first.
At the spec's own concrete scenario (a three-slot ring, reports written
by ticks at times 10, 20, 30 and 40, then a read with room for ten
reports) the returned count claims two reports while the only report
left in the caller's buffer slot is the newest one, written at tick 40;
the older unread report, written at tick 30, was copied to the same
offset and overwritten in place, so it never reaches the caller. -/
theorem read_buffer_not_advanced_bug :
    (read (runMeasures ringState3
        [(respA, 10), (respB, 20), (respC, 30), (respD, 40)]) 10 respA 99).1
      = .ok (2, some (freshReport respD 40))
    ∧ freshReport respC 30 ≠ freshReport respD 40 :=
  ⟨rfl, by decide⟩

/-- C2 counterexample: a measurement step whose bus transfer failed still
advances the write cursor (the source never checks the result of the
transfer call), so the cursors are not left unchanged on failure. -/
theorem measure_failed_transfer_advances_cursor :
    ((measure initState ⟨false, 0, 0, 0, 0⟩ 42).1.next_report = 1)
    ∧ initState.next_report = 0 ∧ (1 : Nat) ≠ 0 :=
  ⟨rfl, rfl, by decide⟩

/-- C2 amended: the measurement step never inspects the transfer result;
on a failed transfer it behaves exactly as on a successful one, writing
the report, advancing the cursors per the ring policy, and publishing
the report it wrote. -/
theorem measure_ignores_transfer_result (s : LSM303D) (st : Nat)
    (x y z : Int) (now : Nat) :
    measure s ⟨false, st, x, y, z⟩ now = measure s ⟨true, st, x, y, z⟩ now
    ∧ (measure s ⟨false, st, x, y, z⟩ now).1.next_report
        = INCREMENT s.next_report s.num_reports
    ∧ (measure s ⟨false, st, x, y, z⟩ now).2
        = freshReport ⟨false, st, x, y, z⟩ now :=
  ⟨rfl, rfl, rfl⟩

/-- C3 counterexample: setPollRate with argument 0 does not behave like
MANUAL: it returns the invalid-argument error where MANUAL returns
success. -/
theorem setPollRate_zero_returns_einval :
    (ioctl initState .SENSORIOCSPOLLRATE 0 true).1 = -EINVAL
    ∧ (ioctl initState .SENSORIOCSPOLLRATE SENSOR_POLLRATE_MANUAL true).1 = OK
    ∧ (-EINVAL : Int) ≠ OK :=
  ⟨rfl, rfl, by decide⟩

/-- C3 amended: argument 0 is rejected with EINVAL from every state with
no state change at all; only the distinct MANUAL sentinel stops the
scheduler, sets the poll interval to 0 and returns success. -/
theorem setPollRate_zero_vs_manual (s : LSM303D) (allocOk : Bool) :
    ioctl s .SENSORIOCSPOLLRATE 0 allocOk = (-EINVAL, s)
    ∧ ioctl s .SENSORIOCSPOLLRATE SENSOR_POLLRATE_MANUAL allocOk
        = (OK, { s with call_active := false, call_interval := 0 }) :=
  ⟨rfl, rfl⟩

/-- C4 counterexample: after configuring a 250 Hz rate the configured
interval is 4000 microseconds yet the initial delay handed to the host
timer is the fixed literal 1000, so the delay does not equal the
configured interval. -/
theorem start_initial_delay_fixed_counterexample :
    ((ioctl initState .SENSORIOCSPOLLRATE 250 true).2.call_interval = 4000)
    ∧ ((ioctl initState .SENSORIOCSPOLLRATE 250 true).2.call_delay = 1000)
    ∧ (1000 : Nat) ≠ 4000 :=
  ⟨rfl, rfl, by decide⟩

/-- C4 amended: start registers the periodic callback with period equal
to the configured interval but with a fixed initial delay of 1000
microseconds regardless of that interval (they agree only at 1000 Hz),
and resets both ring cursors. -/
theorem start_registers_fixed_initial_delay (s : LSM303D) :
    (start s).call_active = true
    ∧ (start s).call_delay = 1000
    ∧ (start s).call_period = s.call_interval
    ∧ (start s).next_report = 0
    ∧ (start s).oldest_report = 0 :=
  ⟨rfl, rfl, rfl, rfl, rfl⟩

/-- C5: in manual mode (poll interval zero) every read with room for at
least one report resets the cursors, performs exactly one synchronous
measurement step, and returns exactly the one fresh report that step
produced. -/
theorem read_manual_single (s : LSM303D) (count : Nat)
    (resp : TransferResp) (now : Nat)
    (hman : s.call_interval = 0) (hcount : 1 ≤ count) :
    (read s count resp now).1 = .ok (1, some (freshReport resp now))
    ∧ (read s count resp now).2
        = (measure { s with oldest_report := 0, next_report := 0 }
            resp now).1 := by
  have hc1 : ¬ count < 1 := by omega
  have hc2 : ¬ 0 < s.call_interval := by omega
  constructor
  · simp only [read, if_neg hc1, if_neg hc2]
    rfl
  · simp only [read, if_neg hc1, if_neg hc2]

/-- Witness for C5 at a concrete manual-mode read. -/
theorem read_manual_single_witness :
    (read initState 1 respA 7).1 = .ok (1, some (freshReport respA 7)) :=
  (read_manual_single initState 1 respA 7 rfl (by decide)).1

/-- C6: setQueueDepth fails with EINVAL outside the accepted bounds and
with ENOMEM when the allocation fails, and in both failure cases the
entire previous driver state (ring capacity, buffer, cursors, unread
contents and scheduler state) is returned untouched. -/
theorem setQueueDepth_failure_preserves_state (s : LSM303D) (n : Nat)
    (allocOk : Bool) :
    (n + 1 < 2 ∨ 100 < n + 1 →
      ioctl s .SENSORIOCSQUEUEDEPTH n allocOk = (-EINVAL, s))
    ∧ (2 ≤ n + 1 → n + 1 ≤ 100 →
        ioctl s .SENSORIOCSQUEUEDEPTH n false = (-ENOMEM, s)) := by
  have hbase : ∀ allocOk2 : Bool, ioctl s .SENSORIOCSQUEUEDEPTH n allocOk2
      = (if n + 1 < 2 ∨ 100 < n + 1 then (-EINVAL, s)
         else if allocOk2 = false then (-ENOMEM, s)
         else (OK, start { stop s with
                           num_reports := n + 1,
                           reports := fun _ => default })) :=
    fun _ => rfl
  constructor
  · intro hrange
    rw [hbase allocOk, if_pos hrange]
  · intro hlo hhi
    rw [hbase false, if_neg (show ¬ (n + 1 < 2 ∨ 100 < n + 1) by omega),
      if_pos rfl]

/-- Witness for C6: out-of-range depth and failed allocation both leave
the fresh driver state untouched. -/
theorem setQueueDepth_failure_preserves_state_witness :
    ioctl initState .SENSORIOCSQUEUEDEPTH 200 true = (-EINVAL, initState)
    ∧ ioctl initState .SENSORIOCSQUEUEDEPTH 5 false = (-ENOMEM, initState) :=
  ⟨(setQueueDepth_failure_preserves_state initState 200 true).1 (by omega),
   (setQueueDepth_failure_preserves_state initState 5 false).2
     (by omega) (by omega)⟩

/-- C7: a plain numeric rate is converted to the interval 1000000 / r
microseconds; a rate above 1000 Hz makes that interval fall below the
1000 microsecond floor and is rejected with EINVAL leaving the whole
state (interval and running status included) unchanged, while every
accepted rate stores the converted interval and starts the scheduler
when it was stopped. -/
lemma setPollRateNumeric_eq (s : LSM303D) (arg : Nat) :
    setPollRateNumeric s arg
      = if 1000000 / arg < 1000 then (-EINVAL, s)
        else (OK, if s.call_interval = 0
          then start { s with call_period := 1000000 / arg,
                              call_interval := 1000000 / arg }
          else { s with call_period := 1000000 / arg,
                        call_interval := 1000000 / arg }) := rfl

theorem setPollRate_numeric_floor (s : LSM303D) (r : Nat) (allocOk : Bool)
    (h1 : r ≠ SENSOR_POLLRATE_MANUAL) (h2 : r ≠ SENSOR_POLLRATE_EXTERNAL)
    (h3 : r ≠ SENSOR_POLLRATE_MAX) (h4 : r ≠ SENSOR_POLLRATE_DEFAULT) :
    (1000 < r → ioctl s .SENSORIOCSPOLLRATE r allocOk = (-EINVAL, s))
    ∧ (0 < r → r ≤ 1000 →
        (ioctl s .SENSORIOCSPOLLRATE r allocOk).1 = OK
        ∧ (ioctl s .SENSORIOCSPOLLRATE r allocOk).2.call_interval
            = 1000000 / r
        ∧ (s.call_interval = 0 →
            (ioctl s .SENSORIOCSPOLLRATE r allocOk).2.call_active = true))
    ∧ (0 < r → (1000000 / r < 1000 ↔ 1000 < r)) := by
  have hdiv : ∀ rr : Nat, 0 < rr → (1000000 / rr < 1000 ↔ 1000 < rr) := by
    intro rr hrr
    rw [Nat.div_lt_iff_lt_mul hrr]
    omega
  have hio : r ≠ 0 →
      ioctl s .SENSORIOCSPOLLRATE r allocOk = setPollRateNumeric s r := by
    intro h0
    have hmd : ¬ (r = SENSOR_POLLRATE_MAX ∨ r = SENSOR_POLLRATE_DEFAULT) := by
      tauto
    simp only [ioctl, if_neg h1, if_neg h2, if_neg h0, if_neg hmd]
  refine ⟨?_, ?_, fun hpos => hdiv r hpos⟩
  · intro hgt
    rw [hio (by omega), setPollRateNumeric_eq,
      if_pos ((hdiv r (by omega)).mpr hgt)]
  · intro hpos hle
    rw [hio (by omega)]
    have hticks : ¬ (1000000 / r < 1000) := by
      rw [hdiv r hpos]
      omega
    rw [setPollRateNumeric_eq, if_neg hticks]
    refine ⟨rfl, ?_, ?_⟩
    · show (if s.call_interval = 0
          then start { s with call_period := 1000000 / r,
                              call_interval := 1000000 / r }
          else { s with call_period := 1000000 / r,
                        call_interval := 1000000 / r }).call_interval
        = 1000000 / r
      split <;> rfl
    · intro hz
      show (if s.call_interval = 0
          then start { s with call_period := 1000000 / r,
                              call_interval := 1000000 / r }
          else { s with call_period := 1000000 / r,
                        call_interval := 1000000 / r }).call_active
        = true
      rw [if_pos hz]
      rfl

/-- Witness for C7: 2000 Hz is rejected with state untouched, 250 Hz is
accepted and starts the stopped scheduler. -/
theorem setPollRate_numeric_floor_witness :
    ioctl initState .SENSORIOCSPOLLRATE 2000 true = (-EINVAL, initState)
    ∧ (ioctl initState .SENSORIOCSPOLLRATE 250 true).2.call_active = true :=
  ⟨(setPollRate_numeric_floor initState 2000 true (by decide) (by decide)
      (by decide) (by decide)).1 (by omega),
   ((setPollRate_numeric_floor initState 250 true (by decide) (by decide)
      (by decide) (by decide)).2.1 (by omega) (by omega)).2.2 rfl⟩

/-- C8: probe compares only the second identity read against WHO_I_AM:
it succeeds exactly on that value, fails with EIO on every other value
including zero, and does not depend on the first, discarded read. -/
theorem probe_identity (r1 r2 : Nat) :
    (probe r1 r2 = OK ↔ r2 = WHO_I_AM)
    ∧ (r2 ≠ WHO_I_AM → probe r1 r2 = - EIO)
    ∧ probe r1 0 = - EIO
    ∧ (∀ r1' : Nat, probe r1 r2 = probe r1' r2) := by
  have hval : probe r1 r2 = if r2 = WHO_I_AM then OK else - EIO := rfl
  refine ⟨?_, ?_, rfl, fun r1' => rfl⟩
  · rw [hval]
    by_cases hc : r2 = WHO_I_AM
    · rw [if_pos hc]
      exact ⟨fun _ => hc, fun _ => rfl⟩
    · rw [if_neg hc]
      exact ⟨fun hbad => absurd hbad (by decide), fun hgood => absurd hgood hc⟩
  · intro hne
    rw [hval, if_neg hne]

/-- Witness for C8: a wrong identity byte fails, the documented constant
succeeds. -/
theorem probe_identity_witness :
    probe 0 3 = - EIO ∧ probe 5 73 = OK :=
  ⟨(probe_identity 0 3).2.1 (by decide), (probe_identity 5 73).1.mpr rfl⟩

/-- C9: for every accepted depth with a successful allocation,
setQueueDepth reallocates the ring to n plus one total slots (one
sentinel slot) and a subsequent getQueueDepth reports exactly n. -/
theorem queueDepth_roundtrip (s : LSM303D) (n : Nat) (h1 : 1 ≤ n)
    (h2 : n ≤ 99) :
    (ioctl s .SENSORIOCSQUEUEDEPTH n true).1 = OK
    ∧ ((ioctl s .SENSORIOCSQUEUEDEPTH n true).2).num_reports = n + 1
    ∧ (ioctl ((ioctl s .SENSORIOCSQUEUEDEPTH n true).2)
        .SENSORIOCGQUEUEDEPTH 0 true).1 = (n : Int) := by
  have hr : ¬ (n + 1 < 2 ∨ 100 < n + 1) := by omega
  have heq : ioctl s .SENSORIOCSQUEUEDEPTH n true
      = (OK, start { stop s with
                     num_reports := n + 1,
                     reports := fun _ => default }) := by
    show (if n + 1 < 2 ∨ 100 < n + 1 then (-EINVAL, s)
      else if (true : Bool) = false then (-ENOMEM, s)
      else (OK, start { stop s with
                        num_reports := n + 1,
                        reports := fun _ => default })) = _
    rw [if_neg hr, if_neg (show ¬ ((true : Bool) = false) by decide)]
  rw [heq]
  exact ⟨rfl, rfl, rfl⟩

/-- Witness for C9 at depth 4. -/
theorem queueDepth_roundtrip_witness :
    (ioctl initState .SENSORIOCSQUEUEDEPTH 4 true).1 = OK
    ∧ ((ioctl initState .SENSORIOCSQUEUEDEPTH 4 true).2).num_reports = 5
    ∧ (ioctl ((ioctl initState .SENSORIOCSQUEUEDEPTH 4 true).2)
        .SENSORIOCGQUEUEDEPTH 0 true).1 = (4 : Int) :=
  queueDepth_roundtrip initState 4 (by decide) (by decide)

lemma Inv_start' {s : LSM303D} (h1 : 2 ≤ s.num_reports)
    (h2 : s.num_reports ≤ 100) : Inv (start s) := by
  refine ⟨h1, h2, ?_, ?_⟩
  · show (0 : Nat) < s.num_reports
    omega
  · show (0 : Nat) < s.num_reports
    omega

lemma Inv_start {s : LSM303D} (h : Inv s) : Inv (start s) :=
  Inv_start' h.1 h.2.1

lemma Inv_setPollRateNumeric {s : LSM303D} (arg : Nat) (h : Inv s) :
    Inv (setPollRateNumeric s arg).2 := by
  rw [setPollRateNumeric_eq]
  by_cases hc : 1000000 / arg < 1000
  · rw [if_pos hc]
    exact h
  · rw [if_neg hc]
    show Inv (if s.call_interval = 0
      then start { s with call_period := 1000000 / arg,
                          call_interval := 1000000 / arg }
      else { s with call_period := 1000000 / arg,
                    call_interval := 1000000 / arg })
    split
    · exact Inv_start ⟨h.1, h.2.1, h.2.2.1, h.2.2.2⟩
    · exact ⟨h.1, h.2.1, h.2.2.1, h.2.2.2⟩

/-- C10: cursor validity. Both ring cursors stay strictly below the ring
capacity (so every cursor dereference of the report array is in bounds)
after initialization, and this is preserved by the measurement step, by
read, by start, by stop, and by every ioctl command. -/
theorem cursor_validity_invariant :
    Inv initState
    ∧ (∀ (s : LSM303D) resp now, Inv s → Inv (measure s resp now).1)
    ∧ (∀ (s : LSM303D) count resp now, Inv s →
        Inv (read s count resp now).2)
    ∧ (∀ s : LSM303D, Inv s → Inv (start s))
    ∧ (∀ s : LSM303D, Inv s → Inv (stop s))
    ∧ (∀ (s : LSM303D) cmd arg allocOk, Inv s →
        Inv (ioctl s cmd arg allocOk).2) := by
  refine ⟨by decide, fun s resp now h => Inv_measure resp now h,
    ?_, fun s h => Inv_start h, fun s h => h, ?_⟩
  · intro s count resp now h
    by_cases hc1 : count < 1
    · have : (read s count resp now).2 = s := by
        simp only [read, if_pos hc1]
      rw [this]
      exact h
    · by_cases hc2 : 0 < s.call_interval
      · obtain ⟨o', ho', heq⟩ := drain_state_spec count s none h
        have : (read s count resp now).2 = (drain s none count).2.2 := by
          simp only [read, if_neg hc1, if_pos hc2]
          split <;> rfl
        rw [this, heq]
        exact ⟨h.1, h.2.1, h.2.2.1, ho'⟩
      · have : (read s count resp now).2
            = (measure { s with oldest_report := 0, next_report := 0 }
                resp now).1 := by
          simp only [read, if_neg hc1, if_neg hc2]
        rw [this]
        refine Inv_measure resp now ⟨h.1, h.2.1, ?_, ?_⟩
        · show (0 : Nat) < s.num_reports
          have := h.1
          omega
        · show (0 : Nat) < s.num_reports
          have := h.1
          omega
  · intro s cmd arg allocOk h
    cases cmd with
    | SENSORIOCSPOLLRATE =>
      simp only [ioctl]
      split_ifs with ha hb hz hmx
      · exact ⟨h.1, h.2.1, h.2.2.1, h.2.2.2⟩
      · exact h
      · exact h
      · exact Inv_setPollRateNumeric 250 h
      · exact Inv_setPollRateNumeric arg h
    | SENSORIOCGPOLLRATE =>
      simp only [ioctl]
      split <;> exact h
    | SENSORIOCSQUEUEDEPTH =>
      simp only [ioctl]
      split_ifs with hrange halloc
      · exact h
      · exact h
      · refine Inv_start' ?_ ?_
        · show 2 ≤ arg + 1
          omega
        · show arg + 1 ≤ 100
          omega
    | SENSORIOCGQUEUEDEPTH => exact h
    | SENSORIOCRESET => exact h

/-- Witness for C10: the invariant holds after a measurement step on the
freshly initialized driver. -/
theorem cursor_validity_invariant_witness :
    Inv (measure initState respA 5).1 :=
  cursor_validity_invariant.2.1 initState respA 5 (by decide)

end Lsm303d
